import Mathlib

/-!
Verification of the two core subsystems of the alsamix control surface:
the mute/solo state machine (`src/manual backup/mute_solo_manager.py`) and
the group coordinator / pan-law math (`src/patchbay.py`,
`src/patchbay_group.py`).  Python dictionaries are embedded as
insertion-ordered association lists, Python sets as lists used only through
membership / emptiness, the ALSA gain backend as an association list from
control name to integer level, and Python float arithmetic as real (for the
trigonometric pan law) or rational (for the ratio computations) arithmetic.
-/

namespace Alsamix

/-- Association-list lookup: the value stored under the first occurrence of
key `k` (a Python dict holds each key once). -/
def lookupS {α : Type} (l : List (String × α)) (k : String) : Option α :=
  match l with
  | [] => none
  | (k', v) :: t => if k' = k then some v else lookupS t k

/-- Association-list update in place: replaces the value under the first
occurrence of key `k`, keeping the insertion order; a missing key is left
missing. -/
def updateS {α : Type} (l : List (String × α)) (k : String) (v : α) : List (String × α) :=
  match l with
  | [] => []
  | (k', v') :: t => if k' = k then (k', v) :: t else (k', v') :: updateS t k v

/-- Python `set.add`: no effect when the element is present. -/
def addS (l : List String) (x : String) : List String :=
  if x ∈ l then l else x :: l

/-- Python `set.discard`: removes the element when present. -/
def removeS (l : List String) (x : String) : List String :=
  match l with
  | [] => []
  | y :: t => if y = x then t else y :: removeS t x

/-- `MuteSoloState` dataclass of `mute_solo_manager.py` with its field
defaults. -/
structure MuteSoloState where
  muted : Bool := false
  soloed : Bool := false
  pre_mute_volume : Int := 50
  pre_solo_muted : Bool := false
  explicit_mute : Bool := false
  explicit_solo : Bool := false
deriving Repr, DecidableEq

/-- The mutable state of `MuteSoloManager`: the channel-state dict, the set
of names that own an ALSA mixer, the hardware levels behind those mixers,
the global soloed/muted sets and the cached `any_soloed` / `any_muted`
flags.  Qt signals and the flash timer carry no recorded state and are not
modelled. -/
structure Manager where
  channel_states : List (String × MuteSoloState)
  mixers : List String
  hw : List (String × Int)
  soloed_channels : List String
  muted_channels : List String
  any_soloed : Bool
  any_muted : Bool
deriving Repr, DecidableEq

/-- `mixer.getvolume()[0]` for a channel's mixer (the backend is total in the
model; the initialisation default is 50). -/
def getvolume (m : Manager) (channel_name : String) : Int :=
  (lookupS m.hw channel_name).getD 50

/-- `mixer.setvolume(v)`: pushes a level to the gain backend. -/
def setvolume (hw : List (String × Int)) (channel_name : String) (v : Int) :
    List (String × Int) :=
  updateS hw channel_name v

/-- `MuteSoloManager.set_mute`.  Unknown channel: warn and return.  No-op when
the requested `(muted, explicit)` pair already holds.  On mute (with a mixer):
read the current hardware level into `pre_mute_volume` and, unless
`skip_alsa`, push 0; on unmute (with a mixer), unless `skip_alsa`, push the
stored `pre_mute_volume`.  Updates the muted flag, the global muted set,
`any_muted`, `explicit_mute` only when `explicit`, and re-snapshots
`pre_solo_muted := muted` whenever no channel is soloed.  `batch` only
suppresses the aggregate signal and has no state effect. -/
def set_mute (m : Manager) (channel_name : String) (muted : Bool)
    (skip_alsa : Bool) (explicit : Bool) (batch : Bool) : Manager :=
  match lookupS m.channel_states channel_name with
  | none => m
  | some state =>
    if state.muted == muted && state.explicit_mute == explicit then m
    else
      let pre_mute_volume :=
        if muted ∧ channel_name ∈ m.mixers then getvolume m channel_name
        else state.pre_mute_volume
      let hw :=
        if muted then
          if channel_name ∈ m.mixers ∧ skip_alsa = false then setvolume m.hw channel_name 0
          else m.hw
        else
          if channel_name ∈ m.mixers ∧ skip_alsa = false then
            setvolume m.hw channel_name state.pre_mute_volume
          else m.hw
      let explicit_mute := if explicit then muted else state.explicit_mute
      let muted_channels :=
        if muted then addS m.muted_channels channel_name
        else removeS m.muted_channels channel_name
      let any_muted := !muted_channels.isEmpty
      let pre_solo_muted := if m.any_soloed then state.pre_solo_muted else muted
      { m with
        channel_states := updateS m.channel_states channel_name
          { state with muted := muted, pre_mute_volume := pre_mute_volume,
                       explicit_mute := explicit_mute, pre_solo_muted := pre_solo_muted },
        hw := hw, muted_channels := muted_channels, any_muted := any_muted }

/-- One iteration of the `_apply_solo_logic` loop body for one channel. -/
def solo_sweep_step (skip_alsa : Bool) (acc : Manager) (channel_name : String) : Manager :=
  match lookupS acc.channel_states channel_name with
  | none => acc
  | some state =>
    let is_main_output := channel_name.startsWith "Main-Out"
    let should_be_muted :=
      if acc.any_soloed then
        (if is_main_output then state.muted else !state.soloed)
      else state.pre_solo_muted
    set_mute acc channel_name should_be_muted skip_alsa false true

/-- The `_apply_solo_logic` loop over a list of channel names. -/
def solo_sweep (skip_alsa : Bool) (acc : Manager) : List String → Manager
  | [] => acc
  | k :: ks => solo_sweep skip_alsa (solo_sweep_step skip_alsa acc k) ks

/-- `MuteSoloManager._apply_solo_logic`: sweep every channel; when any
channel is soloed, a non-output channel should be muted iff it is not
soloed while an output channel keeps its stored flag; when none is soloed,
every channel's mute is restored from `pre_solo_muted`.  Each per-channel
mute is applied through `set_mute` with `explicit=False`. -/
def apply_solo_logic (m : Manager) (skip_alsa : Bool) (batch : Bool) : Manager :=
  solo_sweep skip_alsa m (m.channel_states.map Prod.fst)

/-- The snapshot loop of `set_solo`: every channel's current mute state is
stored into `pre_solo_muted`. -/
def snapshot_pre_solo (cs : List (String × MuteSoloState)) :
    List (String × MuteSoloState) :=
  cs.map (fun p => (p.1, { p.2 with pre_solo_muted := p.2.muted }))

/-- `MuteSoloManager.set_solo`.  Unknown channel: warn and return.  No-op when
the requested `(soloed, explicit)` pair already holds.  On the transition
from "no channel soloed" to "first channel soloed", snapshot every channel's
mute state into `pre_solo_muted`; add/remove the name from the global soloed
set, update the channel's soloed and (when `explicit`) `explicit_solo`
flags, recompute `any_soloed`, then re-apply the solo logic to every
channel. -/
def set_solo (m : Manager) (channel_name : String) (soloed : Bool)
    (skip_alsa : Bool) (explicit : Bool) (batch : Bool) : Manager :=
  match lookupS m.channel_states channel_name with
  | none => m
  | some state =>
    if state.soloed == soloed && state.explicit_solo == explicit then m
    else
      let m1 :=
        if soloed ∧ m.any_soloed = false then
          { m with channel_states := snapshot_pre_solo m.channel_states }
        else m
      let soloed_channels :=
        if soloed then addS m1.soloed_channels channel_name
        else removeS m1.soloed_channels channel_name
      let state1 := (lookupS m1.channel_states channel_name).getD state
      let state2 :=
        { state1 with
          soloed := soloed,
          explicit_solo := if explicit then soloed else state1.explicit_solo }
      let m2 := { m1 with
        channel_states := updateS m1.channel_states channel_name state2,
        soloed_channels := soloed_channels,
        any_soloed := !soloed_channels.isEmpty }
      apply_solo_logic m2 skip_alsa true

/-- Default state returned for an unknown name (`MuteSoloState()` in the
getters). -/
def msDefault : MuteSoloState := {}

/-- `MuteSoloManager.get_mute_state`. -/
def get_mute_state (m : Manager) (channel_name : String) : Bool :=
  ((lookupS m.channel_states channel_name).getD msDefault).muted

/-- `MuteSoloManager.get_solo_state`. -/
def get_solo_state (m : Manager) (channel_name : String) : Bool :=
  ((lookupS m.channel_states channel_name).getD msDefault).soloed

/-- `MuteSoloManager.get_effective_mute_state`: for a non-output channel,
while any channel is soloed, the effective mute is `not soloed`; otherwise
(and always for `Main-Out*` channels) it is the stored muted flag. -/
def get_effective_mute_state (m : Manager) (channel_name : String) : Bool :=
  let is_main_output := channel_name.startsWith "Main-Out"
  if m.any_soloed && !is_main_output then !(get_solo_state m channel_name)
  else get_mute_state m channel_name

/-- A channel record as `_initialize_channels` builds it. -/
def initRecord (initial_volume : Int) : MuteSoloState :=
  { muted := false, soloed := false, pre_mute_volume := initial_volume,
    pre_solo_muted := false }

/-- A concrete manager over three non-output channels `A`, `B`, `C`, all
unmuted, as built at startup. -/
def initABC : Manager :=
  { channel_states := [("A", initRecord 50), ("B", initRecord 50), ("C", initRecord 50)],
    mixers := ["A", "B", "C"],
    hw := [("A", 50), ("B", 50), ("C", 50)],
    soloed_channels := [], muted_channels := [],
    any_soloed := false, any_muted := false }

/-- A concrete manager like `initABC` whose channel `A` sits at hardware
level 70. -/
def initABC70 : Manager :=
  { channel_states := [("A", initRecord 70), ("B", initRecord 50), ("C", initRecord 50)],
    mixers := ["A", "B", "C"],
    hw := [("A", 70), ("B", 50), ("C", 50)],
    soloed_channels := [], muted_channels := [],
    any_soloed := false, any_muted := false }

/-- Python `int(x)` on a float: truncation toward zero, modelled on ℝ. -/
noncomputable def pyInt (x : ℝ) : ℤ := if 0 ≤ x then ⌊x⌋ else ⌈x⌉

/-- Python `int(q)` on an exact rational: truncation toward zero. -/
def pyIntQ (q : ℚ) : ℤ := if 0 ≤ q then ⌊q⌋ else ⌈q⌉

/-- `left_ratio = math.cos(pan * math.pi / 2)` with `pan = crossfader_pos / 100.0`
(`_on_macro_fader_changed` / `_on_crossfader_changed`). -/
noncomputable def left_ratio (crossfader_pos : ℤ) : ℝ :=
  Real.cos ((crossfader_pos : ℝ) / 100 * (Real.pi / 2))

/-- `right_ratio = math.sin(pan * math.pi / 2)` with `pan = crossfader_pos / 100.0`. -/
noncomputable def right_ratio (crossfader_pos : ℤ) : ℝ :=
  Real.sin ((crossfader_pos : ℝ) / 100 * (Real.pi / 2))

/-- `GroupContainer._on_macro_fader_changed` (patchbay_group.py): the level
pushed to the left member, `min(max(int(value * left_ratio), 0), 100)`. -/
noncomputable def container_left_volume (value crossfader_pos : ℤ) : ℤ :=
  min (max (pyInt ((value : ℝ) * left_ratio crossfader_pos)) 0) 100

/-- `GroupContainer._on_macro_fader_changed` (patchbay_group.py): the level
pushed to the right member. -/
noncomputable def container_right_volume (value crossfader_pos : ℤ) : ℤ :=
  min (max (pyInt ((value : ℝ) * right_ratio crossfader_pos)) 0) 100

/-- `GroupWidget._on_macro_fader_changed` (patchbay.py): the level pushed to
the left member, `int(value * left_ratio)` (this version does not clamp). -/
noncomputable def widget_left_volume (value crossfader_pos : ℤ) : ℤ :=
  pyInt ((value : ℝ) * left_ratio crossfader_pos)

/-- `GroupWidget._on_macro_fader_changed` (patchbay.py): the level pushed to
the right member. -/
noncomputable def widget_right_volume (value crossfader_pos : ℤ) : ℤ :=
  pyInt ((value : ℝ) * right_ratio crossfader_pos)

/-- The spec's formula for the derived left level, written from its words for
comparison with the code: `round(macro_level * ratio_a)`, clamped to
`[0, 100]`. -/
noncomputable def spec_level_a (macro_level balance : ℤ) : ℤ :=
  min (max (round ((macro_level : ℝ) * left_ratio balance)) 0) 100

/-- The spec's formula for the derived right level, for comparison:
`round(macro_level * ratio_b)`, clamped to `[0, 100]`. -/
noncomputable def spec_level_b (macro_level balance : ℤ) : ℤ :=
  min (max (round ((macro_level : ℝ) * right_ratio balance)) 0) 100

/-- `GroupWidget._initialize_from_blocks` (patchbay.py): the initial macro
fader level, `(val1 + val2) // 2` (Python floor division). -/
def init_macro_level (val1 val2 : ℤ) : ℤ := Int.fdiv (val1 + val2) 2

/-- `GroupWidget._initialize_from_blocks` (patchbay.py): the initial
crossfader position `int((val1 / total) * 100)` when `val1 + val2 > 0`, else
50 (both nested guards of the source kept). -/
def init_crossfader_pos (val1 val2 : ℤ) : ℤ :=
  if val1 + val2 > 0 then
    let total := val1 + val2
    if total > 0 then pyIntQ ((val1 : ℚ) / (total : ℚ) * 100) else 50
  else 50

/-- The spec's formula for the initial balance, written from its words for
comparison with the code: `round(100 * a / (a + b))` when `a + b > 0`, else
50. -/
def spec_balance (a b : ℤ) : ℤ :=
  if a + b > 0 then round ((100 * (a : ℚ)) / ((a : ℚ) + (b : ℚ))) else 50

/-- The display state a `GroupContainer` owns: the crossfader slider, the
macro fader slider (both Qt sliders with range 0..100) and the separately
stored `macro_fader_value`. -/
structure GroupCtlState where
  crossfader : ℤ
  macro_slider : ℤ
  macro_fader_value : ℤ
deriving Repr, DecidableEq

/-- `QSlider.setValue`: the stored value is clamped to the slider's range. -/
def qt_set_value (lo hi v : ℤ) : ℤ := min (max v lo) hi

/-- `GroupContainer._on_individual_fader_changed` (patchbay_group.py): with
signals blocked, sets the crossfader to `int((right_current / total) * 100)`
(else 50), sets the macro slider to `total_volume = left + right` (the Qt
slider clamps it to its 0..100 range), stores the unclamped total in
`macro_fader_value`, and performs no gain-backend write (the hardware map is
passed through unchanged). -/
def on_individual_fader_changed (g : GroupCtlState) (left_current right_current : ℤ)
    (hw : List (String × Int)) : GroupCtlState × List (String × Int) :=
  let total_volume := left_current + right_current
  let crossfader_pos :=
    if total_volume > 0 then pyIntQ ((right_current : ℚ) / (total_volume : ℚ) * 100)
    else 50
  ({ crossfader := qt_set_value 0 100 crossfader_pos,
     macro_slider := qt_set_value 0 100 total_volume,
     macro_fader_value := total_volume }, hw)

/-- The pairing state of the patchbay scene: each channel block's
`current_group` reference, the list of live groups (id, left block, right
block), and a fresh-id counter standing for allocation of a new
`GroupWidget`. -/
structure PatchState where
  blocks : List (String × Option Nat)
  groups : List (Nat × String × String)
  next_group_id : Nat
deriving Repr, DecidableEq

/-- A block's `current_group` attribute (None for a block that is not in the
scene). -/
def current_group (st : PatchState) (x : String) : Option Nat :=
  (lookupS st.blocks x).getD none

/-- `ChannelBlock._create_group`: rejected as a no-op when either block is
already in a group; otherwise a fresh group over the two blocks is created
and both blocks' `current_group` references are set to it. -/
def create_group (st : PatchState) (self other : String) : PatchState :=
  if (current_group st self).isSome ∨ (current_group st other).isSome then st
  else
    { blocks := updateS (updateS st.blocks self (some st.next_group_id)) other
        (some st.next_group_id),
      groups := st.groups ++ [(st.next_group_id, self, other)],
      next_group_id := st.next_group_id + 1 }

/-- The grouping path of `ChannelBlock.mouseReleaseEvent`: nothing happens
when the released block is already in a group; a candidate equal to the
released block or already in a group is skipped by the scan filter
(`item != self and not item.current_group`); otherwise `_create_group`
runs. -/
def mouse_release_pair (st : PatchState) (self other : String) : PatchState :=
  if (current_group st self).isSome then st
  else if other = self ∨ (current_group st other).isSome then st
  else create_group st self other

/-- `GroupWidget.ungroup`: both members' `current_group` references are
cleared and the group is removed from the live list. -/
def ungroup (st : PatchState) (e : Nat × String × String) : PatchState :=
  { blocks := updateS (updateS st.blocks e.2.1 none) e.2.2 none,
    groups := st.groups.filter (fun t => t.1 != e.1),
    next_group_id := st.next_group_id }

/-- The states the patchbay can reach: startup (every block ungrouped, no
groups), a pairing gesture over two blocks of the scene, or ungrouping a
live group. -/
inductive Reachable : PatchState → Prop
  | init (blocks : List (String × Option Nat)) (h : ∀ p ∈ blocks, p.2 = none) :
      Reachable { blocks := blocks, groups := [], next_group_id := 0 }
  | pair {st : PatchState} (self other : String)
      (hs : self ∈ st.blocks.map Prod.fst) (ho : other ∈ st.blocks.map Prod.fst)
      (h : Reachable st) : Reachable (mouse_release_pair st self other)
  | ungroup_step {st : PatchState} (e : Nat × String × String) (he : e ∈ st.groups)
      (h : Reachable st) : Reachable (ungroup st e)

/-- `x` is one of the two member blocks of group entry `e`. -/
def memberOf (x : String) (e : Nat × String × String) : Prop := x = e.2.1 ∨ x = e.2.2

/-- The consistency invariant of the pairing state: every live group's two
members are distinct, point back at the group, and carry an id below the
fresh counter; group ids are pairwise distinct; and every `current_group`
reference points at a live group the block belongs to. -/
structure GroupInv (st : PatchState) : Prop where
  grouped : ∀ e ∈ st.groups,
    current_group st e.2.1 = some e.1 ∧ current_group st e.2.2 = some e.1 ∧
    e.2.1 ≠ e.2.2 ∧ e.1 < st.next_group_id
  ids : (st.groups.map (fun e => e.1)).Nodup
  assigned : ∀ x g, current_group st x = some g →
    ∃ e ∈ st.groups, e.1 = g ∧ memberOf x e

/-! ### Association-list lemmas -/

theorem lookupS_eq_none_of_not_mem {α : Type} (l : List (String × α)) (k : String)
    (h : k ∉ l.map Prod.fst) : lookupS l k = none := by
  induction l with
  | nil => rfl
  | cons p t ih =>
    obtain ⟨k', v⟩ := p
    simp only [List.map_cons, List.mem_cons] at h
    push_neg at h
    have hne : ¬ k' = k := fun hk => h.1 hk.symm
    simp only [lookupS, if_neg hne]
    exact ih h.2

theorem lookupS_mem_of_isSome {α : Type} (l : List (String × α)) (k : String) (w : α)
    (h : lookupS l k = some w) : k ∈ l.map Prod.fst := by
  induction l with
  | nil => simp [lookupS] at h
  | cons p t ih =>
    obtain ⟨k', v⟩ := p
    by_cases hk : k' = k
    · simp [hk]
    · simp only [lookupS, if_neg hk] at h
      simp [ih h]

theorem lookupS_isSome_of_mem {α : Type} (l : List (String × α)) (k : String)
    (h : k ∈ l.map Prod.fst) : ∃ v, lookupS l k = some v := by
  induction l with
  | nil => simp at h
  | cons p t ih =>
    obtain ⟨k', v⟩ := p
    by_cases hk : k' = k
    · exact ⟨v, by simp [lookupS, hk]⟩
    · simp only [List.map_cons, List.mem_cons] at h
      rcases h with h | h
      · exact absurd h.symm hk
      · simpa only [lookupS, if_neg hk] using ih h

theorem lookupS_updateS_self {α : Type} (l : List (String × α)) (k : String) (v w : α)
    (h : lookupS l k = some w) : lookupS (updateS l k v) k = some v := by
  induction l with
  | nil => simp [lookupS] at h
  | cons p t ih =>
    obtain ⟨k', v'⟩ := p
    by_cases hk : k' = k
    · simp [updateS, lookupS, hk]
    · simp only [lookupS, if_neg hk] at h
      simp only [updateS, if_neg hk, lookupS]
      exact ih h

theorem lookupS_updateS_other {α : Type} (l : List (String × α)) (k ch : String) (v : α)
    (h : ch ≠ k) : lookupS (updateS l k v) ch = lookupS l ch := by
  induction l with
  | nil => rfl
  | cons p t ih =>
    obtain ⟨k', v'⟩ := p
    by_cases hk : k' = k
    · subst hk
      have hne : ¬ k' = ch := fun hc => h hc.symm
      simp [updateS, lookupS, hne]
    · simp only [updateS, if_neg hk, lookupS]
      split <;> simp [ih]

theorem updateS_map_fst {α : Type} (l : List (String × α)) (k : String) (v : α) :
    (updateS l k v).map Prod.fst = l.map Prod.fst := by
  induction l with
  | nil => rfl
  | cons p t ih =>
    obtain ⟨k', v'⟩ := p
    by_cases hk : k' = k <;> simp [updateS, hk, ih]

theorem snapshot_map_fst (cs : List (String × MuteSoloState)) :
    (snapshot_pre_solo cs).map Prod.fst = cs.map Prod.fst := by
  simp [snapshot_pre_solo]

theorem lookupS_snapshot (cs : List (String × MuteSoloState)) (ch : String) :
    lookupS (snapshot_pre_solo cs) ch =
      (lookupS cs ch).map (fun r => { r with pre_solo_muted := r.muted }) := by
  induction cs with
  | nil => rfl
  | cons p t ih =>
    obtain ⟨k', v⟩ := p
    simp only [snapshot_pre_solo, List.map_cons] at *
    by_cases hk : k' = ch
    · simp [lookupS, hk]
    · simpa [lookupS, if_neg hk] using ih

theorem addS_not_isEmpty (l : List String) (x : String) : (addS l x).isEmpty = false := by
  unfold addS
  split
  next h => cases l with
    | nil => simp at h
    | cons y t => rfl
  next h => rfl

/-! ### Structural lemmas about `set_mute` -/

theorem set_mute_not_found (m : Manager) (k : String) (v sk e b : Bool)
    (h : lookupS m.channel_states k = none) : set_mute m k v sk e b = m := by
  unfold set_mute
  rw [h]

theorem set_mute_any_soloed (m : Manager) (k : String) (v sk e b : Bool) :
    (set_mute m k v sk e b).any_soloed = m.any_soloed := by
  unfold set_mute
  split
  · rfl
  · split <;> rfl

theorem set_mute_mixers (m : Manager) (k : String) (v sk e b : Bool) :
    (set_mute m k v sk e b).mixers = m.mixers := by
  unfold set_mute
  split
  · rfl
  · split <;> rfl

theorem set_mute_soloed_channels (m : Manager) (k : String) (v sk e b : Bool) :
    (set_mute m k v sk e b).soloed_channels = m.soloed_channels := by
  unfold set_mute
  split
  · rfl
  · split <;> rfl

theorem set_mute_keys (m : Manager) (k : String) (v sk e b : Bool) :
    (set_mute m k v sk e b).channel_states.map Prod.fst =
      m.channel_states.map Prod.fst := by
  unfold set_mute
  split
  · rfl
  · split
    · rfl
    · simp [updateS_map_fst]

theorem set_mute_lookup_other (m : Manager) (k : String) (v sk e b : Bool) (ch : String)
    (h : ch ≠ k) :
    lookupS (set_mute m k v sk e b).channel_states ch = lookupS m.channel_states ch := by
  unfold set_mute
  split
  · rfl
  · split
    · rfl
    · simp [lookupS_updateS_other _ _ _ _ h]

theorem set_mute_muted_self (m : Manager) (k : String) (v sk e b : Bool)
    (st : MuteSoloState) (h : lookupS m.channel_states k = some st) :
    ∃ w, lookupS (set_mute m k v sk e b).channel_states k = some w ∧ w.muted = v := by
  unfold set_mute
  split
  next heq => exact absurd (h.symm.trans heq) (by simp)
  next state heq =>
    have hst : st = state := by
      have := h.symm.trans heq
      exact Option.some.inj this
    split
    next hcond =>
      refine ⟨state, heq, ?_⟩
      simp only [Bool.and_eq_true, beq_iff_eq] at hcond
      exact hcond.1
    next hcond =>
      exact ⟨_, lookupS_updateS_self _ _ _ _ heq, rfl⟩

theorem set_mute_pre_solo_of_any_soloed (m : Manager) (k : String) (v sk e b : Bool)
    (ch : String) (hs : m.any_soloed = true) :
    (lookupS (set_mute m k v sk e b).channel_states ch).map (fun r => r.pre_solo_muted) =
      (lookupS m.channel_states ch).map (fun r => r.pre_solo_muted) := by
  by_cases hch : ch = k
  · subst hch
    unfold set_mute
    split
    · rfl
    next state heq =>
      split
      · rfl
      · rw [lookupS_updateS_self _ _ _ _ heq, heq]
        simp [hs]
  · rw [set_mute_lookup_other _ _ _ _ _ _ _ hch]

theorem set_mute_explicit_mute_of_implicit (m : Manager) (k : String) (v sk b : Bool)
    (ch : String) :
    (lookupS (set_mute m k v sk false b).channel_states ch).map (fun r => r.explicit_mute) =
      (lookupS m.channel_states ch).map (fun r => r.explicit_mute) := by
  by_cases hch : ch = k
  · subst hch
    unfold set_mute
    split
    · rfl
    next state heq =>
      split
      · rfl
      · rw [lookupS_updateS_self _ _ _ _ heq, heq]
        simp
  · rw [set_mute_lookup_other _ _ _ _ _ _ _ hch]

/-! ### Structural lemmas about the solo re-application sweep -/

theorem solo_sweep_step_any_soloed (sk : Bool) (acc : Manager) (k : String) :
    (solo_sweep_step sk acc k).any_soloed = acc.any_soloed := by
  unfold solo_sweep_step
  split
  · rfl
  · exact set_mute_any_soloed _ _ _ _ _ _

theorem solo_sweep_any_soloed (sk : Bool) (ks : List String) (acc : Manager) :
    (solo_sweep sk acc ks).any_soloed = acc.any_soloed := by
  induction ks generalizing acc with
  | nil => rfl
  | cons k ks ih =>
    show (solo_sweep sk (solo_sweep_step sk acc k) ks).any_soloed = acc.any_soloed
    rw [ih, solo_sweep_step_any_soloed]

theorem solo_sweep_step_lookup_other (sk : Bool) (acc : Manager) (k ch : String)
    (h : ch ≠ k) :
    lookupS (solo_sweep_step sk acc k).channel_states ch = lookupS acc.channel_states ch := by
  unfold solo_sweep_step
  split
  · rfl
  · exact set_mute_lookup_other _ _ _ _ _ _ _ h

theorem solo_sweep_lookup_not_mem (sk : Bool) (ks : List String) (acc : Manager)
    (ch : String) (h : ch ∉ ks) :
    lookupS (solo_sweep sk acc ks).channel_states ch = lookupS acc.channel_states ch := by
  induction ks generalizing acc with
  | nil => rfl
  | cons k ks ih =>
    show lookupS (solo_sweep sk (solo_sweep_step sk acc k) ks).channel_states ch = _
    have hne : ch ≠ k := fun hc => h (hc ▸ List.mem_cons_self k ks)
    rw [ih _ (fun hc => h (List.mem_cons_of_mem k hc)),
        solo_sweep_step_lookup_other _ _ _ _ hne]

theorem solo_sweep_step_pre_solo (sk : Bool) (acc : Manager) (k ch : String)
    (hs : acc.any_soloed = true) :
    (lookupS (solo_sweep_step sk acc k).channel_states ch).map (fun r => r.pre_solo_muted) =
      (lookupS acc.channel_states ch).map (fun r => r.pre_solo_muted) := by
  unfold solo_sweep_step
  split
  · rfl
  · exact set_mute_pre_solo_of_any_soloed _ _ _ _ _ _ _ hs

theorem solo_sweep_pre_solo (sk : Bool) (ks : List String) (acc : Manager) (ch : String)
    (hs : acc.any_soloed = true) :
    (lookupS (solo_sweep sk acc ks).channel_states ch).map (fun r => r.pre_solo_muted) =
      (lookupS acc.channel_states ch).map (fun r => r.pre_solo_muted) := by
  induction ks generalizing acc with
  | nil => rfl
  | cons k ks ih =>
    show (lookupS (solo_sweep sk (solo_sweep_step sk acc k) ks).channel_states ch).map _ = _
    rw [ih _ (by rw [solo_sweep_step_any_soloed]; exact hs),
        solo_sweep_step_pre_solo _ _ _ _ hs]

theorem solo_sweep_step_explicit_mute (sk : Bool) (acc : Manager) (k ch : String) :
    (lookupS (solo_sweep_step sk acc k).channel_states ch).map (fun r => r.explicit_mute) =
      (lookupS acc.channel_states ch).map (fun r => r.explicit_mute) := by
  unfold solo_sweep_step
  split
  · rfl
  · exact set_mute_explicit_mute_of_implicit _ _ _ _ _ _

theorem solo_sweep_explicit_mute (sk : Bool) (ks : List String) (acc : Manager)
    (ch : String) :
    (lookupS (solo_sweep sk acc ks).channel_states ch).map (fun r => r.explicit_mute) =
      (lookupS acc.channel_states ch).map (fun r => r.explicit_mute) := by
  induction ks generalizing acc with
  | nil => rfl
  | cons k ks ih =>
    show (lookupS (solo_sweep sk (solo_sweep_step sk acc k) ks).channel_states ch).map _ = _
    rw [ih, solo_sweep_step_explicit_mute]

/-- When no channel is soloed, the sweep body restores a channel's mute flag
from its `pre_solo_muted` snapshot. -/
theorem solo_sweep_restores (sk : Bool) (ks : List String) (acc : Manager)
    (hno : acc.any_soloed = false) (hnd : ks.Nodup) (ch : String) (hch : ch ∈ ks)
    (rec : MuteSoloState) (hrec : lookupS acc.channel_states ch = some rec) :
    ∃ w, lookupS (solo_sweep sk acc ks).channel_states ch = some w ∧
      w.muted = rec.pre_solo_muted := by
  induction ks generalizing acc with
  | nil => simp at hch
  | cons k ks ih =>
    have hknotin : k ∉ ks := (List.nodup_cons.mp hnd).1
    have hndks : ks.Nodup := (List.nodup_cons.mp hnd).2
    show ∃ w, lookupS (solo_sweep sk (solo_sweep_step sk acc k) ks).channel_states ch
        = some w ∧ w.muted = rec.pre_solo_muted
    rcases List.mem_cons.mp hch with hck | hck
    · subst hck
      have hstep : solo_sweep_step sk acc ch =
          set_mute acc ch rec.pre_solo_muted sk false true := by
        unfold solo_sweep_step
        rw [hrec]
        simp [hno]
      obtain ⟨w, hw, hwm⟩ :=
        set_mute_muted_self acc ch rec.pre_solo_muted sk false true rec hrec
      refine ⟨w, ?_, hwm⟩
      rw [solo_sweep_lookup_not_mem _ _ _ _ hknotin, hstep]
      exact hw
    · have hne : ch ≠ k := fun hc => hknotin (hc ▸ hck)
      have hrec' : lookupS (solo_sweep_step sk acc k).channel_states ch = some rec := by
        rw [solo_sweep_step_lookup_other _ _ _ _ hne]
        exact hrec
      exact ih (solo_sweep_step sk acc k)
        (by rw [solo_sweep_step_any_soloed]; exact hno) hndks hck hrec'

/-! ### Further auxiliaries -/

theorem set_solo_not_found (m : Manager) (k : String) (v sk e b : Bool)
    (h : lookupS m.channel_states k = none) : set_solo m k v sk e b = m := by
  unfold set_solo
  rw [h]

theorem set_mute_true_explicit_self (m : Manager) (k : String) (sk b : Bool)
    (st : MuteSoloState) (h : lookupS m.channel_states k = some st) :
    ∃ w, lookupS (set_mute m k true sk true b).channel_states k = some w ∧
      w.muted = true ∧ w.explicit_mute = true := by
  unfold set_mute
  split
  next heq => exact absurd (h.symm.trans heq) (by simp)
  next state heq =>
    split
    next hcond =>
      simp only [Bool.and_eq_true, beq_iff_eq] at hcond
      exact ⟨state, heq, hcond.1, hcond.2⟩
    next hcond =>
      refine ⟨_, lookupS_updateS_self _ _ _ _ heq, rfl, ?_⟩
      simp

theorem set_mute_mute_effect (m : Manager) (k : String) (e b : Bool)
    (st : MuteSoloState) (hlook : lookupS m.channel_states k = some st)
    (hm : st.muted = false) (hmix : k ∈ m.mixers) :
    (set_mute m k true false e b).hw = setvolume m.hw k 0 ∧
    ∃ w, lookupS (set_mute m k true false e b).channel_states k = some w ∧
      w.muted = true ∧ w.pre_mute_volume = getvolume m k := by
  unfold set_mute
  split
  next heq => exact absurd (hlook.symm.trans heq) (by simp)
  next state heq =>
    have hst : state = st := Option.some.inj (heq.symm.trans hlook)
    subst hst
    split
    next hcond =>
      simp only [Bool.and_eq_true, beq_iff_eq] at hcond
      rw [hm] at hcond
      exact absurd hcond.1 (by simp)
    next hcond =>
      refine ⟨by simp [hmix], ?_⟩
      refine ⟨_, lookupS_updateS_self _ _ _ _ heq, by simp, by simp [hmix]⟩

theorem set_mute_unmute_effect (m : Manager) (k : String) (e b : Bool)
    (st : MuteSoloState) (hlook : lookupS m.channel_states k = some st)
    (hm : st.muted = true) (hmix : k ∈ m.mixers) :
    (set_mute m k false false e b).hw = setvolume m.hw k st.pre_mute_volume := by
  unfold set_mute
  split
  next heq => exact absurd (hlook.symm.trans heq) (by simp)
  next state heq =>
    have hst : state = st := Option.some.inj (heq.symm.trans hlook)
    subst hst
    split
    next hcond =>
      simp only [Bool.and_eq_true, beq_iff_eq] at hcond
      rw [hm] at hcond
      exact absurd hcond.1 (by simp)
    next hcond =>
      simp [hmix]

/-- Transfer of the sweep's `pre_solo_muted` preservation to an existence
form. -/
theorem sweep_exists_pre_solo (sk : Bool) (m2 : Manager) (ks : List String) (ch : String)
    (v : Bool) (hs : m2.any_soloed = true)
    (h2 : (lookupS m2.channel_states ch).map (fun r => r.pre_solo_muted) = some v) :
    ∃ rec', lookupS (solo_sweep sk m2 ks).channel_states ch = some rec' ∧
      rec'.pre_solo_muted = v := by
  have htr := solo_sweep_pre_solo sk ks m2 ch hs
  rw [h2] at htr
  cases hlk : lookupS (solo_sweep sk m2 ks).channel_states ch with
  | none => rw [hlk] at htr; exact Option.noConfusion htr
  | some rec' =>
    rw [hlk] at htr
    exact ⟨rec', rfl, Option.some.inj htr⟩

/-! ### Claim theorems -/

/-- C8: calling `set_mute(name, true, explicit=True)` twice in a row leaves
the whole manager — in particular the channel's record — in exactly the
state the first call produced: the second call is a no-op. -/
theorem C8_set_mute_idempotent :
    ∀ (m : Manager) (name : String) (sk b sk' b' : Bool),
      set_mute (set_mute m name true sk true b) name true sk' true b' =
        set_mute m name true sk true b := by
  intro m name sk b sk' b'
  cases h : lookupS m.channel_states name with
  | none =>
    rw [set_mute_not_found _ _ _ _ _ _ h, set_mute_not_found _ _ _ _ _ _ h]
  | some st =>
    obtain ⟨w, hw, hwm, hwe⟩ := set_mute_true_explicit_self m name sk b st h
    generalize hM : set_mute m name true sk true b = M at hw
    unfold set_mute
    rw [hw]
    simp [hwm, hwe]

/-- C9: `set_mute` and `set_solo` on a name missing from the channel map
return (no exception is possible in the model: both are total functions) and
leave the manager — every record, the soloed set and the muted set —
unchanged, for every argument combination. -/
theorem C9_unknown_channel_noop :
    ∀ (m : Manager) (name : String) (v sk e b v2 sk2 e2 b2 : Bool),
      name ∉ m.channel_states.map Prod.fst →
      set_mute m name v sk e b = m ∧ set_solo m name v2 sk2 e2 b2 = m := by
  intro m name v sk e b v2 sk2 e2 b2 h
  have hn := lookupS_eq_none_of_not_mem _ _ h
  exact ⟨set_mute_not_found _ _ _ _ _ _ hn, set_solo_not_found _ _ _ _ _ _ hn⟩

/-- C9 witness: the unknown name `Z` leaves the concrete three-channel
manager untouched. -/
theorem C9_unknown_channel_noop_witness :
    set_mute initABC "Z" true false true false = initABC ∧
    set_solo initABC "Z" true false true false = initABC :=
  C9_unknown_channel_noop initABC "Z" true false true false true false true false
    (by decide)

/-- C10: a `set_solo` call — with any arguments — never changes any
channel's `explicit_mute` flag: the re-application sweep mutes and unmutes
only through `set_mute` with `explicit=False`, which leaves `explicit_mute`
untouched. -/
theorem C10_set_solo_preserves_explicit_mute :
    ∀ (m : Manager) (name : String) (soloed sk e b : Bool) (ch : String),
      (lookupS (set_solo m name soloed sk e b).channel_states ch).map
          (fun r => r.explicit_mute) =
        (lookupS m.channel_states ch).map (fun r => r.explicit_mute) := by
  intro m name soloed sk e b ch
  unfold set_solo
  split
  · rfl
  next state heq =>
    split
    · rfl
    next hcond =>
      simp only [apply_solo_logic]
      rw [solo_sweep_explicit_mute]
      by_cases hch : ch = name
      · subst hch
        by_cases hsnap : (soloed = true ∧ m.any_soloed = false)
        · rw [if_pos hsnap]
          have hlook : lookupS (snapshot_pre_solo m.channel_states) ch =
              some { state with pre_solo_muted := state.muted } := by
            rw [lookupS_snapshot, heq]
            rfl
          simp only [hlook]
          rw [lookupS_updateS_self _ _ _ _ hlook, heq]
          rfl
        · rw [if_neg hsnap]
          simp only [heq]
          rw [lookupS_updateS_self _ _ _ _ heq]
          simp
      · rw [lookupS_updateS_other _ _ _ _ hch]
        by_cases hsnap : (soloed = true ∧ m.any_soloed = false)
        · rw [if_pos hsnap]
          show (lookupS (snapshot_pre_solo m.channel_states) ch).map _ = _
          rw [lookupS_snapshot]
          cases lookupS m.channel_states ch <;> rfl
        · rw [if_neg hsnap]

/-- C1: for a known channel (with `any_soloed` consistent with the soloed
set, as every operation keeps it), `get_effective_mute_state` of a
non-output channel returns the negation of its soloed flag whenever some
channel is soloed, ignoring the stored muted flag; with no channel soloed,
and always for `Main-Out*` channels, it returns the stored muted flag.  In
particular, soloing `B` among unmuted non-output `{A, B, C}` makes the
effective mute true for `A` and `C` and false for `B`. -/
theorem C1_effective_mute :
    (∀ (m : Manager) (name : String) (rec : MuteSoloState),
        lookupS m.channel_states name = some rec →
        m.any_soloed = !m.soloed_channels.isEmpty →
        ((m.soloed_channels ≠ [] ∧ name.startsWith "Main-Out" = false) →
            get_effective_mute_state m name = !rec.soloed) ∧
        ((m.soloed_channels = [] ∨ name.startsWith "Main-Out" = true) →
            get_effective_mute_state m name = rec.muted)) ∧
    (get_effective_mute_state (set_solo initABC "B" true false true false) "A" = true ∧
      get_effective_mute_state (set_solo initABC "B" true false true false) "B" = false ∧
      get_effective_mute_state (set_solo initABC "B" true false true false) "C" = true) := by
  constructor
  · intro m name rec hlook hany
    constructor
    · rintro ⟨hne, hmo⟩
      have hemp : m.soloed_channels.isEmpty = false := by
        cases h : m.soloed_channels with
        | nil => exact absurd h hne
        | cons a t => rfl
      unfold get_effective_mute_state
      rw [hany, hemp, hmo]
      simp [get_solo_state, hlook]
    · intro h
      unfold get_effective_mute_state
      rcases h with h | h
      · have hemp : m.soloed_channels.isEmpty = true := by rw [h]; rfl
        rw [hany, hemp]
        simp [get_mute_state, hlook]
      · rw [h]
        simp [get_mute_state, hlook]
  · exact ⟨by decide, by decide, by decide⟩

/-- C1 witness: the general clause applied to the concrete three-channel
manager with nothing soloed: the effective mute of `A` is its stored muted
flag, false. -/
theorem C1_effective_mute_witness :
    get_effective_mute_state initABC "A" = (initRecord 50).muted :=
  (C1_effective_mute.1 initABC "A" (initRecord 50) rfl rfl).2 (Or.inl rfl)

/-- C3: a known, unmuted channel with a mixer whose hardware level is 70,
explicitly muted then unmuted: the mute stores 70 in `pre_mute_volume` and
pushes 0 to the backend; the unmute pushes 70 back. -/
theorem C3_mute_round_trip :
    ∀ (m : Manager) (name : String) (st : MuteSoloState),
      lookupS m.channel_states name = some st →
      st.muted = false →
      name ∈ m.mixers →
      lookupS m.hw name = some 70 →
      m.soloed_channels = [] →
      (∃ st1, lookupS (set_mute m name true false true false).channel_states name
          = some st1 ∧ st1.pre_mute_volume = 70) ∧
      lookupS (set_mute m name true false true false).hw name = some 0 ∧
      lookupS (set_mute (set_mute m name true false true false) name false false true
          false).hw name = some 70 := by
  intro m name st hlook hm hmix hhw _hsol
  obtain ⟨hhw1, w, hwlook, hwm, hwv⟩ :=
    set_mute_mute_effect m name true false st hlook hm hmix
  have hvol : getvolume m name = 70 := by
    unfold getvolume
    rw [hhw]
    rfl
  refine ⟨⟨w, hwlook, by rw [hwv, hvol]⟩, ?_, ?_⟩
  · rw [hhw1]
    exact lookupS_updateS_self _ _ _ _ hhw
  · have hmix1 : name ∈ (set_mute m name true false true false).mixers := by
      rw [set_mute_mixers]
      exact hmix
    have hhw2 := set_mute_unmute_effect (set_mute m name true false true false) name
      true false w hwlook hwm hmix1
    rw [hhw2, hwv, hvol]
    have h0 : lookupS (set_mute m name true false true false).hw name = some 0 := by
      rw [hhw1]
      exact lookupS_updateS_self _ _ _ _ hhw
    exact lookupS_updateS_self _ _ _ _ h0

/-- C3 witness: the round trip on channel `A` of a concrete manager whose
hardware level for `A` is 70. -/
theorem C3_mute_round_trip_witness :
    (∃ st1, lookupS (set_mute initABC70 "A" true false true false).channel_states "A"
        = some st1 ∧ st1.pre_mute_volume = 70) ∧
    lookupS (set_mute initABC70 "A" true false true false).hw "A" = some 0 ∧
    lookupS (set_mute (set_mute initABC70 "A" true false true false) "A" false false true
        false).hw "A" = some 70 :=
  C3_mute_round_trip initABC70 "A" (initRecord 70) rfl rfl (by decide) rfl rfl

/-- C2: (a) a first `set_solo(name, True)` from a state with no channel
soloed snapshots, for every channel, the muted flag the channel had at call
time into its `pre_solo_muted` field (the re-application sweep, running with
`any_soloed` already true, never overwrites the snapshot); (b) a `set_solo`
call that leaves the soloed set empty restores every channel's muted flag
from its `pre_solo_muted` snapshot. -/
theorem C2_solo_snapshot_and_restore :
    (∀ (m : Manager) (name : String) (st : MuteSoloState) (sk e b : Bool),
        m.any_soloed = false →
        lookupS m.channel_states name = some st →
        st.soloed = false →
        ∀ ch rec, lookupS m.channel_states ch = some rec →
          ∃ rec', lookupS (set_solo m name true sk e b).channel_states ch = some rec' ∧
            rec'.pre_solo_muted = rec.muted) ∧
    (∀ (m : Manager) (name : String) (st : MuteSoloState) (sk e b : Bool),
        (m.channel_states.map Prod.fst).Nodup →
        lookupS m.channel_states name = some st →
        st.soloed = true →
        removeS m.soloed_channels name = [] →
        ∀ ch rec, lookupS m.channel_states ch = some rec →
          ∃ rec', lookupS (set_solo m name false sk e b).channel_states ch = some rec' ∧
            rec'.muted = rec.pre_solo_muted) := by
  constructor
  · intro m name st sk e b hany hlook hsol ch rec hch
    unfold set_solo
    split
    next heq => exact absurd (hlook.symm.trans heq) (by simp)
    next state heq =>
      have hst : state = st := Option.some.inj (heq.symm.trans hlook)
      split
      next hcond =>
        simp [hst, hsol] at hcond
      next hcond =>
        have hsnaplook : lookupS (snapshot_pre_solo m.channel_states) name
            = some { st with pre_solo_muted := st.muted } := by
          rw [lookupS_snapshot, hlook]
          rfl
        simp only [apply_solo_logic, hst, hany, eq_self_iff_true, and_self, true_and,
          and_true, if_true, hsnaplook, Option.getD_some]
        apply sweep_exists_pre_solo
        · simp [addS_not_isEmpty]
        · by_cases hch2 : ch = name
          · subst hch2
            have hrec : rec = st := Option.some.inj (hch.symm.trans hlook)
            rw [lookupS_updateS_self _ _ _ _ hsnaplook]
            simp [hrec]
          · rw [lookupS_updateS_other _ _ _ _ hch2, lookupS_snapshot, hch]
            rfl
  · intro m name st sk e b hnd hlook hsol hrem ch rec hch
    unfold set_solo
    split
    next heq => exact absurd (hlook.symm.trans heq) (by simp)
    next state heq =>
      have hst : state = st := Option.some.inj (heq.symm.trans hlook)
      split
      next hcond => simp [hst, hsol] at hcond
      next hcond =>
        simp only [apply_solo_logic, hst, hlook, hrem, Option.getD_some, updateS_map_fst,
          Bool.false_eq_true, false_and, if_false, List.isEmpty_nil, Bool.not_true]
        by_cases hch2 : ch = name
        · subst hch2
          have hrecst : rec = st := Option.some.inj (hch.symm.trans hlook)
          rw [hrecst]
          exact solo_sweep_restores sk _ _ (by rfl) hnd ch
            (lookupS_mem_of_isSome _ _ _ hch)
            { st with
              soloed := false
              explicit_solo := if e = true then false else st.explicit_solo }
            (lookupS_updateS_self _ _ _ _ hlook)
        · exact solo_sweep_restores sk _ _ (by rfl) hnd ch
            (lookupS_mem_of_isSome _ _ _ hch) rec
            (by rw [lookupS_updateS_other _ _ _ _ hch2]; exact hch)

/-- C2 witness: on the concrete three-channel manager, soloing `B` snapshots
`A`'s (unmuted) state, and un-soloing `B` afterwards restores `A`'s muted
flag from the snapshot. -/
theorem C2_solo_snapshot_and_restore_witness :
    (∃ rec', lookupS (set_solo initABC "B" true false true false).channel_states "A"
        = some rec' ∧ rec'.pre_solo_muted = false) ∧
    (∃ rec', lookupS (set_solo (set_solo initABC "B" true false true false) "B" false
        false true false).channel_states "A" = some rec' ∧ rec'.muted = false) := by
  constructor
  · exact C2_solo_snapshot_and_restore.1 initABC "B" (initRecord 50) false true false
      rfl rfl rfl "A" (initRecord 50) rfl
  · exact C2_solo_snapshot_and_restore.2 (set_solo initABC "B" true false true false)
      "B" ⟨false, true, 50, false, false, true⟩ false true false
      (by decide) (by decide) rfl (by decide)
      "A" ⟨true, false, 50, false, false, false⟩ (by decide)


theorem lookupS_mem_pair {α : Type} (l : List (String × α)) (k : String) (v : α)
    (h : lookupS l k = some v) : (k, v) ∈ l := by
  induction l with
  | nil => exact Option.noConfusion h
  | cons p t ih =>
    obtain ⟨k', v'⟩ := p
    by_cases hk : k' = k
    · subst hk
      simp only [lookupS, if_pos rfl] at h
      cases Option.some.inj h
      exact List.mem_cons_self _ _
    · simp only [lookupS, if_neg hk] at h
      exact List.mem_cons_of_mem _ (ih h)

theorem current_group_eq_some (st : PatchState) (x : String) (g : Nat)
    (h : current_group st x = some g) : lookupS st.blocks x = some (some g) := by
  unfold current_group at h
  cases hl : lookupS st.blocks x with
  | none => rw [hl] at h; exact Option.noConfusion h
  | some o => rw [hl] at h; simp only [Option.getD_some] at h; rw [h]

theorem pair_inv (st : PatchState) (self other : String)
    (hs : self ∈ st.blocks.map Prod.fst) (ho : other ∈ st.blocks.map Prod.fst)
    (hneq : other ≠ self)
    (h1 : current_group st self = none) (h2 : current_group st other = none)
    (inv : GroupInv st) :
    GroupInv
      { blocks := updateS (updateS st.blocks self (some st.next_group_id)) other
          (some st.next_group_id),
        groups := st.groups ++ [(st.next_group_id, self, other)],
        next_group_id := st.next_group_id + 1 } := by
  obtain ⟨os, hos⟩ := lookupS_isSome_of_mem st.blocks self hs
  have hbs1 : lookupS (updateS st.blocks self (some st.next_group_id)) self
      = some (some st.next_group_id) := lookupS_updateS_self _ _ _ _ hos
  obtain ⟨ow, how⟩ := lookupS_isSome_of_mem st.blocks other ho
  have hbw0 : lookupS (updateS st.blocks self (some st.next_group_id)) other
      = some ow := by
    rw [lookupS_updateS_other _ _ _ _ hneq]
    exact how
  have hbw : lookupS (updateS (updateS st.blocks self (some st.next_group_id)) other
      (some st.next_group_id)) other = some (some st.next_group_id) :=
    lookupS_updateS_self _ _ _ _ hbw0
  have hbs : lookupS (updateS (updateS st.blocks self (some st.next_group_id)) other
      (some st.next_group_id)) self = some (some st.next_group_id) := by
    rw [lookupS_updateS_other _ _ _ _ (fun hq => hneq hq.symm)]
    exact hbs1
  have hold : ∀ x : String, x ≠ self → x ≠ other →
      lookupS (updateS (updateS st.blocks self (some st.next_group_id)) other
        (some st.next_group_id)) x = lookupS st.blocks x := by
    intro x hxs hxo
    rw [lookupS_updateS_other _ _ _ _ hxo, lookupS_updateS_other _ _ _ _ hxs]
  refine ⟨?_, ?_, ?_⟩
  · intro e he
    rcases List.mem_append.mp he with he1 | he2
    · obtain ⟨g1, g2, g3, g4⟩ := inv.grouped e he1
      have hm1s : e.2.1 ≠ self := by
        intro hq
        rw [hq, h1] at g1
        exact Option.noConfusion g1
      have hm1o : e.2.1 ≠ other := by
        intro hq
        rw [hq, h2] at g1
        exact Option.noConfusion g1
      have hm2s : e.2.2 ≠ self := by
        intro hq
        rw [hq, h1] at g2
        exact Option.noConfusion g2
      have hm2o : e.2.2 ≠ other := by
        intro hq
        rw [hq, h2] at g2
        exact Option.noConfusion g2
      refine ⟨?_, ?_, g3, Nat.lt_succ_of_lt g4⟩
      · show (lookupS (updateS (updateS st.blocks self (some st.next_group_id)) other
            (some st.next_group_id)) e.2.1).getD none = some e.1
        rw [hold _ hm1s hm1o]
        exact g1
      · show (lookupS (updateS (updateS st.blocks self (some st.next_group_id)) other
            (some st.next_group_id)) e.2.2).getD none = some e.1
        rw [hold _ hm2s hm2o]
        exact g2
    · have he2' : e = (st.next_group_id, self, other) := by simpa using he2
      subst he2'
      refine ⟨?_, ?_, fun hq => hneq hq.symm, Nat.lt_succ_self _⟩
      · show (lookupS (updateS (updateS st.blocks self (some st.next_group_id)) other
            (some st.next_group_id)) self).getD none = some st.next_group_id
        rw [hbs]
        rfl
      · show (lookupS (updateS (updateS st.blocks self (some st.next_group_id)) other
            (some st.next_group_id)) other).getD none = some st.next_group_id
        rw [hbw]
        rfl
  · show ((st.groups ++ [(st.next_group_id, self, other)]).map (fun e => e.1)).Nodup
    rw [List.map_append]
    refine List.nodup_append.mpr ⟨inv.ids, by simp, ?_⟩
    intro a ha hb
    simp only [List.map_cons, List.map_nil, List.mem_singleton] at hb
    obtain ⟨e, he, hea⟩ := List.mem_map.mp ha
    have := (inv.grouped e he).2.2.2
    rw [hea] at this
    rw [hb] at this
    exact absurd this (Nat.lt_irrefl _)
  · intro x g hcg
    have hcg' : (lookupS (updateS (updateS st.blocks self (some st.next_group_id)) other
        (some st.next_group_id)) x).getD none = some g := hcg
    by_cases hxo : x = other
    · subst hxo
      rw [hbw] at hcg'
      have hg : g = st.next_group_id := (Option.some.inj hcg').symm
      subst hg
      exact ⟨(st.next_group_id, self, x), List.mem_append_right _ (by simp),
        rfl, Or.inr rfl⟩
    · by_cases hxs : x = self
      · subst hxs
        rw [hbs] at hcg'
        have hg : g = st.next_group_id := (Option.some.inj hcg').symm
        subst hg
        exact ⟨(st.next_group_id, x, other), List.mem_append_right _ (by simp),
          rfl, Or.inl rfl⟩
      · rw [hold x hxs hxo] at hcg'
        obtain ⟨e, he, hid, hm⟩ := inv.assigned x g hcg'
        exact ⟨e, List.mem_append_left _ he, hid, hm⟩

theorem ungroup_inv (st : PatchState) (e : Nat × String × String) (he : e ∈ st.groups)
    (inv : GroupInv st) : GroupInv (ungroup st e) := by
  obtain ⟨hcg1, hcg2, hne12, hlt⟩ := inv.grouped e he
  have hb1' := current_group_eq_some st e.2.1 e.1 hcg1
  have hb2' := current_group_eq_some st e.2.2 e.1 hcg2
  have hB1 : lookupS (updateS (updateS st.blocks e.2.1 none) e.2.2 none) e.2.1
      = some none := by
    rw [lookupS_updateS_other _ _ _ _ hne12]
    exact lookupS_updateS_self _ _ _ _ hb1'
  have hB2 : lookupS (updateS (updateS st.blocks e.2.1 none) e.2.2 none) e.2.2
      = some none := by
    apply lookupS_updateS_self
    rw [lookupS_updateS_other _ _ _ _ (fun hq => hne12 hq.symm)]
    exact hb2'
  have hold : ∀ x : String, x ≠ e.2.1 → x ≠ e.2.2 →
      lookupS (updateS (updateS st.blocks e.2.1 none) e.2.2 none) x
        = lookupS st.blocks x := by
    intro x hx1 hx2
    rw [lookupS_updateS_other _ _ _ _ hx2, lookupS_updateS_other _ _ _ _ hx1]
  have hsame : ∀ e1 ∈ st.groups, ∀ e2 ∈ st.groups, e1.1 = e2.1 → e1 = e2 :=
    fun e1 he1 e2 he2 hq => List.inj_on_of_nodup_map inv.ids he1 he2 hq
  refine ⟨?_, ?_, ?_⟩
  · intro e' he'
    have hmf := List.mem_filter.mp he'
    have he'g : e' ∈ st.groups := hmf.1
    have hne : e'.1 ≠ e.1 := by simpa using hmf.2
    obtain ⟨g1, g2, g3, g4⟩ := inv.grouped e' he'g
    have hm1 : e'.2.1 ≠ e.2.1 := by
      intro hq
      rw [hq, hcg1] at g1
      exact hne (Option.some.inj g1).symm
    have hm2 : e'.2.1 ≠ e.2.2 := by
      intro hq
      rw [hq, hcg2] at g1
      exact hne (Option.some.inj g1).symm
    have hm3 : e'.2.2 ≠ e.2.1 := by
      intro hq
      rw [hq, hcg1] at g2
      exact hne (Option.some.inj g2).symm
    have hm4 : e'.2.2 ≠ e.2.2 := by
      intro hq
      rw [hq, hcg2] at g2
      exact hne (Option.some.inj g2).symm
    refine ⟨?_, ?_, g3, g4⟩
    · show (lookupS (updateS (updateS st.blocks e.2.1 none) e.2.2 none) e'.2.1).getD none
          = some e'.1
      rw [hold _ hm1 hm2]
      exact g1
    · show (lookupS (updateS (updateS st.blocks e.2.1 none) e.2.2 none) e'.2.2).getD none
          = some e'.1
      rw [hold _ hm3 hm4]
      exact g2
  · show ((st.groups.filter (fun t => t.1 != e.1)).map (fun t => t.1)).Nodup
    exact List.Nodup.sublist ((List.filter_sublist _).map _) inv.ids
  · intro x g hcg
    have hcg' : (lookupS (updateS (updateS st.blocks e.2.1 none) e.2.2 none) x).getD none
        = some g := hcg
    by_cases hx1 : x = e.2.1
    · subst hx1
      rw [hB1] at hcg'
      exact Option.noConfusion hcg'
    · by_cases hx2 : x = e.2.2
      · subst hx2
        rw [hB2] at hcg'
        exact Option.noConfusion hcg'
      · rw [hold x hx1 hx2] at hcg'
        obtain ⟨e', he', hid, hm⟩ := inv.assigned x g hcg'
        have hne' : e'.1 ≠ e.1 := by
          intro hq
          have heq : e' = e := hsame e' he' e he hq
          subst heq
          rcases (hm : x = e'.2.1 ∨ x = e'.2.2) with hq1 | hq2
          · exact hx1 hq1
          · exact hx2 hq2
        exact ⟨e', List.mem_filter.mpr ⟨he', by simpa using hne'⟩, hid, hm⟩

theorem reachable_inv : ∀ st, Reachable st → GroupInv st := by
  intro st h
  induction h with
  | init blocks hb =>
    refine ⟨?_, by simp, ?_⟩
    · intro e he
      simp at he
    · intro x g hcg
      exfalso
      unfold current_group at hcg
      cases hl : lookupS blocks x with
      | none => rw [hl] at hcg; exact Option.noConfusion hcg
      | some o =>
        have hmem := lookupS_mem_pair _ _ _ hl
        have ho : o = none := hb _ hmem
        rw [hl, ho] at hcg
        exact Option.noConfusion hcg
  | @pair stp self other hs ho hr ih =>
    unfold mouse_release_pair
    split
    · exact ih
    next hg1 =>
      split
      · exact ih
      next hg2 =>
        unfold create_group
        split
        · exact ih
        next hg3 =>
          push_neg at hg2
          have h1 : current_group stp self = none := by
            cases hcg : current_group stp self with
            | none => rfl
            | some g => rw [hcg] at hg1; simp at hg1
          have h2 : current_group stp other = none := by
            cases hcg : current_group stp other with
            | none => rfl
            | some g => rw [hcg] at hg2; simp at hg2
          exact pair_inv stp self other hs ho hg2.1 h1 h2 ih
  | @ungroup_step stu e he hr ih => exact ungroup_inv stu e he ih


/-- C7: in every reachable patchbay state a channel block belongs to at
most one group, and any pairing request that is a self-pair or names a block
already in a group leaves the state unchanged. -/
theorem C7_one_group_per_block :
    ∀ st : PatchState, Reachable st →
      (∀ e1 ∈ st.groups, ∀ e2 ∈ st.groups, ∀ x : String,
          memberOf x e1 → memberOf x e2 → e1 = e2) ∧
      (∀ a b : String,
          (a = b ∨ (∃ e ∈ st.groups, memberOf a e) ∨ (∃ e ∈ st.groups, memberOf b e)) →
          mouse_release_pair st a b = st) := by
  intro st hr
  have inv := reachable_inv st hr
  constructor
  · intro e1 he1 e2 he2 x hx1 hx2
    have h1 : current_group st x = some e1.1 := by
      rcases (hx1 : x = e1.2.1 ∨ x = e1.2.2) with hq | hq
      · rw [hq]; exact (inv.grouped e1 he1).1
      · rw [hq]; exact (inv.grouped e1 he1).2.1
    have h2 : current_group st x = some e2.1 := by
      rcases (hx2 : x = e2.2.1 ∨ x = e2.2.2) with hq | hq
      · rw [hq]; exact (inv.grouped e2 he2).1
      · rw [hq]; exact (inv.grouped e2 he2).2.1
    exact List.inj_on_of_nodup_map inv.ids he1 he2 (Option.some.inj (h1.symm.trans h2))
  · intro a b h
    have hsome : ∀ y : String, (∃ e ∈ st.groups, memberOf y e) →
        (current_group st y).isSome = true := by
      rintro y ⟨e, he, hm⟩
      rcases (hm : y = e.2.1 ∨ y = e.2.2) with hq | hq
      · rw [hq, (inv.grouped e he).1]; rfl
      · rw [hq, (inv.grouped e he).2.1]; rfl
    unfold mouse_release_pair
    rcases h with hab | hga | hgb
    · subst hab
      split
      · rfl
      · rw [if_pos (Or.inl rfl)]
    · rw [if_pos (hsome a hga)]
    · split
      · rfl
      next hg1 =>
        rw [if_pos (Or.inr (hsome b hgb))]

/-- C7 witness: a self-pair request on a concrete two-block startup state
is a no-op. -/
theorem C7_witness :
    mouse_release_pair
        { blocks := [("A", none), ("B", none)], groups := [], next_group_id := 0 }
        "A" "A"
      = { blocks := [("A", none), ("B", none)], groups := [], next_group_id := 0 } :=
  (C7_one_group_per_block _ (Reachable.init _ (by decide))).2 "A" "A" (Or.inl rfl)


/-- C5 counterexample: grouping members at raw levels 80 and 40, the code's
`int(ratio * 100)` truncation yields balance 66, while the claim's
`round(100 * a / (a + b))` yields 67. -/
theorem C5_counterexample :
    init_macro_level 80 40 = 60 ∧ init_crossfader_pos 80 40 = 66 ∧
    spec_balance 80 40 = 67 ∧ init_crossfader_pos 80 40 ≠ spec_balance 80 40 := by
  refine ⟨rfl, ?_, ?_, ?_⟩
  · norm_num [init_crossfader_pos, pyIntQ]
  · norm_num [spec_balance, round_eq]
  · norm_num [init_crossfader_pos, pyIntQ, spec_balance, round_eq]

/-- C5 (amended): group creation initializes `macro_level = (a + b) // 2` and
`balance = int(100 * a / (a + b))` with truncation when `a + b > 0`; at
levels 80/40 this gives macro 60 and balance 66 (not 67). -/
theorem C5_group_init :
    init_macro_level 80 40 = 60 ∧ init_crossfader_pos 80 40 = 66 ∧
    (∀ a b : ℤ, 0 ≤ a → 0 < a + b →
      init_crossfader_pos a b = ⌊(100 * (a : ℚ)) / ((a : ℚ) + (b : ℚ))⌋) := by
  refine ⟨rfl, by norm_num [init_crossfader_pos, pyIntQ], ?_⟩
  intro a b ha hab
  have habq : (0:ℚ) < (a:ℚ) + (b:ℚ) := by exact_mod_cast hab
  have hq : (0:ℚ) ≤ (a : ℚ) / (((a + b : ℤ) : ℚ)) * 100 := by
    apply mul_nonneg
    · apply div_nonneg
      · exact_mod_cast ha
      · push_cast
        linarith
    · norm_num
  unfold init_crossfader_pos pyIntQ
  simp only [if_pos hab, if_pos hq]
  congr 1
  push_cast
  ring

/-- C5 witness: the general truncation formula applied at the concrete
levels 80/40. -/
theorem C5_group_init_witness :
    init_crossfader_pos 80 40 = ⌊(100 * ((80 : ℤ) : ℚ)) / (((80 : ℤ) : ℚ) + ((40 : ℤ) : ℚ))⌋ :=
  C5_group_init.2.2 80 40 (by norm_num) (by norm_num)

/-- C6 counterexample: at member levels 80/40 the reconciliation sets the
macro slider to the clamped sum 100 (storing 120), not the average 60 the
claim states, and the crossfader to `int(100*right/total) = 33`, not the
creation formula's 66. -/
theorem C6_counterexample :
    (on_individual_fader_changed ⟨50, 60, 60⟩ 80 40 []).1.macro_slider = 100 ∧
    (on_individual_fader_changed ⟨50, 60, 60⟩ 80 40 []).1.macro_fader_value = 120 ∧
    init_macro_level 80 40 = 60 ∧
    (on_individual_fader_changed ⟨50, 60, 60⟩ 80 40 []).1.crossfader = 33 ∧
    init_crossfader_pos 80 40 = 66 := by
  refine ⟨?_, rfl, rfl, ?_, ?_⟩
  · norm_num [on_individual_fader_changed, qt_set_value]
  · norm_num [on_individual_fader_changed, qt_set_value, pyIntQ]
  · norm_num [init_crossfader_pos, pyIntQ]

/-- C6 (amended): when a member's raw level changes from outside the group,
`_on_individual_fader_changed` stores the unclamped sum in
`macro_fader_value`, sets the macro slider to the sum clamped to its 0..100
range, sets the crossfader to `int(100 * right / total)` (else 50), and
pushes nothing to the gain backend. -/
theorem C6_individual_reconcile :
    ∀ (g : GroupCtlState) (l r : ℤ) (hw : List (String × Int)),
      0 ≤ l → 0 ≤ r → 0 < l + r →
      (on_individual_fader_changed g l r hw).2 = hw ∧
      (on_individual_fader_changed g l r hw).1.macro_fader_value = l + r ∧
      (on_individual_fader_changed g l r hw).1.macro_slider = min (l + r) 100 ∧
      (on_individual_fader_changed g l r hw).1.crossfader =
        ⌊(100 * (r : ℚ)) / ((l : ℚ) + (r : ℚ))⌋ := by
  intro g l r hw hl hr hlr
  have hlrq : (0:ℚ) < (l:ℚ) + (r:ℚ) := by exact_mod_cast hlr
  have hq0 : (0:ℚ) ≤ (r : ℚ) / (((l + r : ℤ) : ℚ)) * 100 := by
    apply mul_nonneg
    · apply div_nonneg
      · exact_mod_cast hr
      · push_cast
        linarith
    · norm_num
  have hfl_eq : pyIntQ ((r : ℚ) / (((l + r : ℤ) : ℚ)) * 100)
      = ⌊(100 * (r : ℚ)) / ((l : ℚ) + (r : ℚ))⌋ := by
    unfold pyIntQ
    rw [if_pos hq0]
    congr 1
    push_cast
    ring
  have hlq : (0:ℚ) ≤ (l:ℚ) := by exact_mod_cast hl
  have hq100 : (r : ℚ) / (((l + r : ℤ) : ℚ)) * 100 ≤ 100 := by
    have h1 : (r : ℚ) / (((l + r : ℤ) : ℚ)) ≤ 1 := by
      rw [div_le_one (by push_cast; linarith)]
      push_cast
      linarith
    nlinarith
  have hfl0 : (0:ℤ) ≤ pyIntQ ((r : ℚ) / (((l + r : ℤ) : ℚ)) * 100) := by
    unfold pyIntQ
    rw [if_pos hq0]
    exact Int.floor_nonneg.mpr hq0
  have hfl100 : pyIntQ ((r : ℚ) / (((l + r : ℤ) : ℚ)) * 100) ≤ 100 := by
    unfold pyIntQ
    rw [if_pos hq0]
    have := Int.floor_le_floor hq100
    simpa using this
  refine ⟨rfl, rfl, ?_, ?_⟩
  · show qt_set_value 0 100 (l + r) = min (l + r) 100
    unfold qt_set_value
    rw [max_eq_left (by linarith)]
  · show qt_set_value 0 100 (if l + r > 0 then pyIntQ ((r : ℚ) / (((l + r : ℤ) : ℚ)) * 100)
        else 50) = ⌊(100 * (r : ℚ)) / ((l : ℚ) + (r : ℚ))⌋
    rw [if_pos hlr]
    unfold qt_set_value
    rw [max_eq_left hfl0, min_eq_left hfl100]
    exact hfl_eq

/-- C6 witness: the reconciliation at concrete member levels 80/40. -/
theorem C6_individual_reconcile_witness :
    (on_individual_fader_changed ⟨50, 100, 100⟩ 80 40 []).2 = ([] : List (String × Int)) ∧
    (on_individual_fader_changed ⟨50, 100, 100⟩ 80 40 []).1.macro_fader_value = 80 + 40 ∧
    (on_individual_fader_changed ⟨50, 100, 100⟩ 80 40 []).1.macro_slider
      = min ((80 : ℤ) + 40) 100 ∧
    (on_individual_fader_changed ⟨50, 100, 100⟩ 80 40 []).1.crossfader
      = ⌊(100 * ((40 : ℤ) : ℚ)) / (((80 : ℤ) : ℚ) + ((40 : ℤ) : ℚ))⌋ :=
  C6_individual_reconcile ⟨50, 100, 100⟩ 80 40 [] (by norm_num) (by norm_num) (by norm_num)


theorem pan_50_eq : ((50 : ℤ) : ℝ) / 100 * (Real.pi / 2) = Real.pi / 4 := by
  push_cast
  ring

theorem left_ratio_50 : left_ratio 50 = Real.sqrt 2 / 2 := by
  unfold left_ratio
  rw [pan_50_eq, Real.cos_pi_div_four]

theorem right_ratio_50 : right_ratio 50 = Real.sqrt 2 / 2 := by
  unfold right_ratio
  rw [pan_50_eq, Real.sin_pi_div_four]

theorem sqrt_two_bounds : 1.41 ≤ Real.sqrt 2 ∧ Real.sqrt 2 < 1.42 := by
  have h1 : Real.sqrt 2 ^ 2 = 2 := Real.sq_sqrt (by norm_num)
  have h2 : (0:ℝ) ≤ Real.sqrt 2 := Real.sqrt_nonneg 2
  constructor
  · nlinarith [h1, h2]
  · nlinarith [h1, h2]

theorem floor_100_half_sqrt_two : ⌊(100 : ℝ) * (Real.sqrt 2 / 2)⌋ = 70 := by
  obtain ⟨hl, hu⟩ := sqrt_two_bounds
  rw [Int.floor_eq_iff]
  constructor
  · push_cast
    nlinarith
  · push_cast
    nlinarith

theorem round_100_half_sqrt_two : round ((100 : ℝ) * (Real.sqrt 2 / 2)) = 71 := by
  obtain ⟨hl, hu⟩ := sqrt_two_bounds
  rw [round_eq, Int.floor_eq_iff]
  constructor
  · push_cast
    nlinarith
  · push_cast
    nlinarith

theorem pyInt_100_half_sqrt_two : pyInt ((100 : ℝ) * (Real.sqrt 2 / 2)) = 70 := by
  unfold pyInt
  rw [if_pos (by positivity), floor_100_half_sqrt_two]

/-- C4 counterexample: at macro 100 and balance 50 the code's truncation
computes 70 while the claim's `round(macro * cos(pi/4))` computes 71, so the
derived levels are not given by the claimed round formula. -/
theorem C4_counterexample :
    container_left_volume 100 50 = 70 ∧ spec_level_a 100 50 = 71 ∧
    container_left_volume 100 50 ≠ spec_level_a 100 50 := by
  have hc : container_left_volume 100 50 = 70 := by
    unfold container_left_volume
    rw [left_ratio_50]
    norm_num [pyInt_100_half_sqrt_two]
  have hs : spec_level_a 100 50 = 71 := by
    unfold spec_level_a
    rw [left_ratio_50]
    norm_num [round_100_half_sqrt_two]
  refine ⟨hc, hs, ?_⟩
  rw [hc, hs]
  norm_num

/-- C4 (amended): the derived member levels use `int()` truncation of
`macro * cos/sin((balance/100) * pi/2)` (clamped in GroupContainer,
unclamped in GroupWidget); at macro 100 and balance 50 all four computed
levels equal 70, within 1 of 70 — the constant-power split, not 50/50. -/
theorem C4_pan_law :
    container_left_volume 100 50 = 70 ∧ container_right_volume 100 50 = 70 ∧
    widget_left_volume 100 50 = 70 ∧ widget_right_volume 100 50 = 70 := by
  refine ⟨?_, ?_, ?_, ?_⟩
  · unfold container_left_volume
    rw [left_ratio_50]
    norm_num [pyInt_100_half_sqrt_two]
  · unfold container_right_volume
    rw [right_ratio_50]
    norm_num [pyInt_100_half_sqrt_two]
  · unfold widget_left_volume
    rw [left_ratio_50]
    norm_num [pyInt_100_half_sqrt_two]
  · unfold widget_right_volume
    rw [right_ratio_50]
    norm_num [pyInt_100_half_sqrt_two]

end Alsamix
